import Mathlib

/-!
Shallow embedding of `make_shaders.py` (chromiumos window_manager GLES shader
wrapper generator) and verification of its specification claims.

The Python tool reads GLSL stage files, extracts `uniform`/`attribute`
declarations with the regex `^\s*(uniform|attribute)\s+(?:\S+\s+)*(\S+)\s*;`,
merges the two stages' slot lists into a per-program dict (asserting that no
name repeats), and renders C++ wrapper classes through string templates.

Strings are modelled as Lean `String`s (lists of characters); Python 2 byte
strings are ASCII here, so character-by-character modelling is faithful.
Brace characters inside generated C++ text are written with `\x7b`/`\x7d`
escapes.
-/

namespace MakeShaders

/-- Python `\s` whitespace on ASCII: space, tab, newline, carriage return,
vertical tab, form feed. -/
def pySpace (c : Char) : Bool :=
  c = ' ' || c = '\t' || c = '\n' || c = '\r' || c = '\x0b' || c = '\x0c'

/-- Python 2 file iteration: split text into lines, each line keeping its
trailing newline character; a final piece without a newline is still a line;
empty text yields no lines. -/
def pyLines : List Char → List (List Char)
  | [] => []
  | c :: cs =>
    if c = '\n' then ['\n'] :: pyLines cs
    else
      match pyLines cs with
      | [] => [[c]]
      | l :: ls => (c :: l) :: ls

/-- Python `line.rstrip('\n')`: drop all trailing newline characters. -/
def rstripNlC (l : List Char) : List Char :=
  (l.reverse.dropWhile (fun c => c = '\n')).reverse

/-- Remove a single trailing newline when present (used to state the
round-trip property of the line scanner). -/
def dropLastNlC (cs : List Char) : List Char :=
  if cs.getLast? = some '\n' then cs.dropLast else cs

/-- Join character lines with a newline separator (Python `'\n'.join`). -/
def joinC : List (List Char) → List Char
  | [] => []
  | [l] => l
  | l :: ls => l ++ '\n' :: joinC ls

/-- One extracted declaration: the Python dict `{'type': kind, 'name': name}`
built by `Shader._Parse`.  The kind is kept as the raw matched string
(`"uniform"` or `"attribute"`), exactly as the Python code stores it. -/
structure Binding where
  type : String
  name : String
deriving DecidableEq

/-- Maximal nonspace runs of a character list (helper for the regex model). -/
def runsOfAux (cur : List Char) : List Char → List (List Char)
  | [] => if cur = [] then [] else [cur.reverse]
  | c :: cs =>
    if pySpace c then
      if cur = [] then runsOfAux [] cs else cur.reverse :: runsOfAux [] cs
    else runsOfAux (c :: cur) cs

/-- Maximal nonspace runs of a character list. -/
def runsOf (cs : List Char) : List (List Char) := runsOfAux [] cs

/-- Longest proper run segment ending just before a `;` at position at least
one: backtracking of `(\S+)\s*;` inside a single nonspace run. -/
def semiCut (r : List Char) : Option (List Char) :=
  match ((List.range r.length).filter
      (fun p => decide (1 ≤ p) && (r.getD p ' ' = ';'))).getLast? with
  | some p => some (r.take p)
  | none => none

/-- Try to place the captured name inside run `r`, given the following
nonspace run (if any): the greedy engine first tries the whole run as the
name (requiring the next run to start with `;`), then splits `r` at its last
interior semicolon. -/
def tryRun (r : List Char) (next : Option (List Char)) : Option (List Char) :=
  match next with
  | some n => if n.head? = some ';' then some r else semiCut r
  | none => semiCut r

/-- Backtracking placement of `(?:\S+\s+)*(\S+)\s*;` over the run list: the
star is greedy, so later runs are tried before earlier ones. -/
def findName : List (List Char) → Option (List Char)
  | [] => none
  | r :: rest =>
    match findName rest with
    | some n => some n
    | none => tryRun r rest.head?

/-- Drop an expected keyword from the front of a character list. -/
def chopKeyword : List Char → List Char → Option (List Char)
  | [], cs => some cs
  | _ :: _, [] => none
  | k :: ks, c :: cs => if c = k then chopKeyword ks cs else none

/-- Match `keyword\s+` at the front and return the remainder with the
whitespace stripped; the keyword must be followed by at least one
whitespace character. -/
def matchKw (kw : List Char) (cs : List Char) : Option (List Char) :=
  match chopKeyword kw cs with
  | some (c :: rs) =>
    if pySpace c then some ((c :: rs).dropWhile pySpace) else none
  | _ => none

/-- Model of `re.match(r'^\s*(uniform|attribute)\s+(?:\S+\s+)*(\S+)\s*;', line)`
with Python's leftmost greedy backtracking semantics, returning the matched
kind (group 1) and name (group 2).  Validated against CPython `re` on the
source regex over hand-picked and fuzzed inputs. -/
def matchSlotC (line : List Char) : Option Binding :=
  let cs := line.dropWhile pySpace
  match matchKw "uniform".data cs with
  | some rest => (findName (runsOf rest)).map (fun n => ⟨"uniform", ⟨n⟩⟩)
  | none =>
    match matchKw "attribute".data cs with
    | some rest => (findName (runsOf rest)).map (fun n => ⟨"attribute", ⟨n⟩⟩)
    | none => none

/-- String-level wrapper for the declaration-line matcher. -/
def matchSlot (line : String) : Option Binding := matchSlotC line.data

/-- Python 2 file iteration lifted to `String`s. -/
def fileLines (text : String) : List String :=
  (pyLines text.data).map (fun l => ⟨l⟩)

/-- String-level `rstrip('\n')`. -/
def rstripNl (s : String) : String := ⟨rstripNlC s.data⟩

/-- String-level single-trailing-newline removal. -/
def stripOneNl (s : String) : String := ⟨dropLastNlC s.data⟩

/-- Python `sep.join(lines)`. -/
def joinWith (sep : String) : List String → String
  | [] => ""
  | [l] => l
  | l :: ls => l ++ sep ++ joinWith sep ls

/-- Join lines with newline separators, as `'\n'.join` does. -/
def joinLines : List String → String := joinWith "\n"

/-- The `Shader` object of the Python source: a stage name, the verbatim
source lines (newline-stripped), and the extracted slot list. -/
structure Shader where
  name : String
  source : List String
  slots : List Binding
deriving DecidableEq

/-- The slot-collecting loop of `Shader._Parse`: scan lines in order,
appending one binding per matching line. -/
def slotsOfLines : List String → List Binding
  | [] => []
  | l :: ls =>
    match matchSlot l with
    | some b => b :: slotsOfLines ls
    | none => slotsOfLines ls

/-- Build a `Shader` from a stage name and the stage file's full text:
`Shader.__init__` followed by `_Parse`. -/
def mkShader (name text : String) : Shader :=
  let src := (fileLines text).map rstripNl
  ⟨name, src, slotsOfLines src⟩

/-- Byte-lexicographic string comparison, as Python 2 compares `str` values
(shorter prefixes sort first). -/
def strLeAux : List Char → List Char → Bool
  | [], _ => true
  | _ :: _, [] => false
  | a :: as, b :: bs => if a = b then strLeAux as bs else decide (a < b)

/-- Python 2 `<=` on byte strings. -/
def strLe (s t : String) : Bool := strLeAux s.data t.data

/-- The ordering proposition used for `sorted(...)`. -/
def strLeP (s t : String) : Prop := strLe s t = true

instance : DecidableRel strLeP :=
  fun a b => inferInstanceAs (Decidable (strLe a b = true))

/-- Transitivity of the byte-lexicographic comparison. -/
def strLeAux_trans_pf :
    ∀ a b c : List Char, strLeAux a b = true → strLeAux b c = true →
      strLeAux a c = true := by
  intro a
  induction a with
  | nil => intro b c _ _; rfl
  | cons x xs ih =>
    intro b c hab hbc
    cases b with
    | nil => simp [strLeAux] at hab
    | cons y ys =>
      cases c with
      | nil => simp [strLeAux] at hbc
      | cons z zs =>
        simp only [strLeAux] at hab hbc ⊢
        by_cases hxy : x = y
        · subst hxy
          by_cases hyz : x = z
          · subst hyz
            simp only [if_pos rfl] at hab hbc ⊢
            exact ih ys zs hab hbc
          · simp only [if_pos rfl] at hab
            simp only [if_neg hyz] at hbc ⊢
            exact hbc
        · by_cases hyz : y = z
          · subst hyz
            simp only [if_neg hxy] at hab ⊢
            exact hab
          · simp only [if_neg hxy] at hab
            simp only [if_neg hyz] at hbc
            have hxz : x < z := lt_trans (of_decide_eq_true hab) (of_decide_eq_true hbc)
            have : x ≠ z := ne_of_lt hxz
            simp only [if_neg this]
            exact decide_eq_true hxz

/-- Totality of the byte-lexicographic comparison. -/
def strLeAux_total_pf :
    ∀ a b : List Char, strLeAux a b = true ∨ strLeAux b a = true := by
  intro a
  induction a with
  | nil => intro b; left; rfl
  | cons x xs ih =>
    intro b
    cases b with
    | nil => right; rfl
    | cons y ys =>
      by_cases hxy : x = y
      · subst hxy
        rcases ih ys with h | h
        · left; simpa [strLeAux] using h
        · right; simpa [strLeAux] using h
      · rcases lt_or_gt_of_ne hxy with h | h
        · left; simp [strLeAux, if_neg hxy, h]
        · right
          have hyx : y ≠ x := fun e => hxy e.symm
          simp [strLeAux, if_neg hyx, h]

/-- Antisymmetry of the byte-lexicographic comparison. -/
def strLeAux_antisymm_pf :
    ∀ a b : List Char, strLeAux a b = true → strLeAux b a = true → a = b := by
  intro a
  induction a with
  | nil =>
    intro b _ hba
    cases b with
    | nil => rfl
    | cons y ys => simp [strLeAux] at hba
  | cons x xs ih =>
    intro b hab hba
    cases b with
    | nil => simp [strLeAux] at hab
    | cons y ys =>
      simp only [strLeAux] at hab hba
      by_cases hxy : x = y
      · subst hxy
        simp only [if_pos rfl] at hab hba
        rw [ih ys hab hba]
      · have hyx : y ≠ x := fun e => hxy e.symm
        simp only [if_neg hxy] at hab
        simp only [if_neg hyx] at hba
        exact absurd (of_decide_eq_true hba)
          (not_lt_of_gt (of_decide_eq_true hab))

instance : IsTrans String strLeP :=
  ⟨fun a b c hab hbc => strLeAux_trans_pf a.data b.data c.data hab hbc⟩

instance : IsTotal String strLeP :=
  ⟨fun a b => strLeAux_total_pf a.data b.data⟩

instance : IsAntisymm String strLeP :=
  ⟨fun a b hab hba => String.ext (strLeAux_antisymm_pf a.data b.data hab hba)⟩

/-- The merged name-to-kind mapping of `Program._MakeSlots`, represented as
an association list in insertion order (a Python dict with string keys; only
its sorted key view is ever rendered). -/
abbrev SlotMap := List (String × String)

/-- The fold of `Program._MakeSlots`: insert each slot, first asserting that
its name is not already a key (`assert slot['name'] not in self.slots`);
`none` models the `AssertionError` aborting the run. -/
def mergeSlots : SlotMap → List Binding → Option SlotMap
  | m, [] => some m
  | m, b :: bs =>
    match m.lookup b.name with
    | some _ => none
    | none => mergeSlots (m ++ [(b.name, b.type)]) bs

/-- Python `sorted(self.slots)`: the dict keys in byte-lexicographic order. -/
def sortedKeys (m : SlotMap) : List String :=
  List.insertionSort strLeP (m.map Prod.fst)

/-- The `accessors` dict of `Program.FetchSlots`, mapping a binding kind to
the GL lookup-call fragment; `none` models a `KeyError`. -/
def kindAccessor (t : String) : Option String :=
  if t = "uniform" then some "Uniform"
  else if t = "attribute" then some "Attrib" else none

/-- The two lines emitted per binding by `Program.FetchSlots`: the location
lookup and the validity `CHECK`. -/
def fetchLinesFor (m : SlotMap) (k : String) : Option (List String) :=
  match m.lookup k with
  | some t =>
    (kindAccessor t).map (fun a =>
      ["  " ++ k ++ "_ = glGet" ++ a ++ "Location(program(), \"" ++ k ++ "\");",
       "  CHECK(" ++ k ++ "_ >= 0);"])
  | none => none

/-- The accumulation loop of `Program.FetchSlots` over the sorted keys. -/
def fetchSlotsList (m : SlotMap) : List String → Option (List String)
  | [] => some []
  | k :: ks =>
    match fetchLinesFor m k with
    | some ls => (fetchSlotsList m ks).map (fun rest => ls ++ rest)
    | none => none

/-- `Program.FetchSlots`: constructor body lines fetching every binding's
location in name-sorted order; `none` models the dict `KeyError`. -/
def fetchSlots (m : SlotMap) : Option String :=
  (fetchSlotsList m (sortedKeys m)).map joinLines

/-- `Program.Slots`: one private `GLint` storage member per binding,
name-sorted. -/
def slotsDecl (m : SlotMap) : String :=
  joinLines ((sortedKeys m).map (fun k => "  GLint " ++ k ++ "_;"))

/-- Python `identifier.split('_')`. -/
def splitUS : List Char → List (List Char)
  | [] => [[]]
  | c :: cs =>
    if c = '_' then [] :: splitUS cs
    else
      match splitUS cs with
      | [] => [[c]]
      | l :: ls => (c :: l) :: ls

/-- Python 2 `str.title()` on ASCII: a letter that follows a non-letter is
uppercased, any other letter is lowercased; the boolean carries whether the
previous character was a letter. -/
def pyTitleAux : Bool → List Char → List Char
  | _, [] => []
  | prev, c :: cs =>
    if c.isAlpha then
      (if prev then c.toLower else c.toUpper) :: pyTitleAux true cs
    else c :: pyTitleAux false cs

/-- `CamelCase` from the source: split on underscores, `title()` each piece,
concatenate. -/
def camelCase (s : String) : String :=
  ⟨((splitUS s.data).map (pyTitleAux false)).flatten⟩

/-- The accessor declaration emitted per binding by `Program.Accessors`. -/
def accessorLine (k : String) : String :=
  "  GLint " ++ camelCase k ++ "Location() const \x7b return " ++ k ++ "_; \x7d"

/-- `Program.Accessors`: one public accessor per binding, name-sorted. -/
def accessors (m : SlotMap) : String :=
  joinLines ((sortedKeys m).map accessorLine)

/-- The attribute-collecting loop of `Program.UsedVertexAttribs`: keep the
sorted keys whose kind compares equal to `'attribute'`. -/
def attribsLoop (m : SlotMap) : List String → List String
  | [] => []
  | k :: ks =>
    if m.lookup k == some "attribute" then k :: attribsLoop m ks
    else attribsLoop m ks

/-- The attribute-kind bindings of a program, in name-sorted order. -/
def attribsOf (m : SlotMap) : List String := attribsLoop m (sortedKeys m)

/-- The constant `prefix` string of `Program.UsedVertexAttribs`. -/
def uvaHead : String := "  SetUsedVertexAttribs("

/-- The operand separator of `Program.UsedVertexAttribs`: `' |\n'` plus one
space per character of the call head. -/
def uvaSep : String := " |\n" ++ String.mk (List.replicate uvaHead.length ' ')

/-- `Program.UsedVertexAttribs`: the emitted registration call; each operand
shifts by the binding's `GLint` member variable. -/
def usedVertexAttribs (m : SlotMap) : String :=
  let attribs := attribsOf m
  let out :=
    if attribs.length = 1 then "1 << " ++ attribs.headD "" ++ "_"
    else joinWith uvaSep (attribs.map (fun a => "(1 << " ++ a ++ "_)"))
  uvaHead ++ out ++ ");"

/-- Operand rendering of the registration call from a given attribute name
list (the single-operand special case drops the parentheses). -/
def uvaBody (as : List String) : String :=
  if as.length = 1 then "1 << " ++ as.headD "" ++ "_"
  else joinWith uvaSep (as.map (fun a => "(1 << " ++ a ++ "_)"))

/-- Modelled from the spec words of the bitmask claim: an emitted call whose
bit indices are the attribute bindings' positions in the overall name-sorted
binding list (numeric storage-slot indices, not member variables). -/
def usedVertexAttribsSpecWords (m : SlotMap) : String :=
  let idxs := (((sortedKeys m).enum.filter
      (fun p => m.lookup p.2 == some "attribute")).map Prod.fst)
  let out :=
    if idxs.length = 1 then "1 << " ++ toString (idxs.headD 0)
    else joinWith uvaSep (idxs.map (fun i => "(1 << " ++ toString i ++ ")"))
  uvaHead ++ out ++ ");"

/-- Modelled from the spec words of the accessor claim: capitalize one
segment (uppercase its first character, lowercase the rest). -/
def capSeg : List Char → List Char
  | [] => []
  | c :: cs => c.toUpper :: cs.map Char.toLower

/-- Modelled from the spec words of the accessor claim: split on
underscores, capitalize each segment, concatenate. -/
def camelCaseSpecWords (s : String) : String :=
  ⟨((splitUS s.data).map capSeg).flatten⟩

/-- `Shader.SourceName`: the name of the embedded source constant. -/
def sourceName (sh : Shader) : String := "k" ++ sh.name ++ "Src"

/-- Append a suffix to the last element of a nonempty list
(`out[-1] += ';'`). -/
def appendToLast : List String → String → List String
  | [], _ => []
  | [x], s => [x ++ s]
  | x :: xs, s => x :: appendToLast xs s

/-- `Shader.QuotedSource`: the stage text embedded as one C string constant,
each line a `"...\n"` segment, the last output line terminated by `;`. -/
def quotedSource (sh : Shader) : String :=
  let out := ("static const char* " ++ sourceName sh ++ " =") ::
    sh.source.map (fun l => "    \"" ++ l ++ "\\n\"")
  joinLines (appendToLast out ";")

/-- The class declaration block of `shader_template` after substitution
(`Program.Header`). -/
def headerFragment (pname : String) (m : SlotMap) : String :=
  "class " ++ pname ++ " : public Shader \x7b\n public:\n  " ++ pname ++
  "();\n\n" ++ accessors m ++ "\n\n private:\n" ++ slotsDecl m ++
  "\n\n  DISALLOW_COPY_AND_ASSIGN(" ++ pname ++ ");\n\x7d;\n"

/-- The constructor definition block of `ctor_template` after substitution
(`Program.Implementation`); `none` propagates the `FetchSlots` failure. -/
def implFragment (pname vsn fsn : String) (m : SlotMap) : Option String :=
  (fetchSlots m).map (fun fs =>
    pname ++ "::" ++ pname ++ "()\n    : Shader(" ++ vsn ++ ", " ++ fsn ++
    ") \x7b\n" ++ fs ++ "\n" ++ usedVertexAttribs m ++ "\n\x7d\n")

/-- The fixed stage table of the source (`shaders`); a Python dict whose
iteration order is modelled as the literal order. -/
def shadersTable : List (String × String) :=
  [("TexColorVertex", "compositor/gles/tex_color.glslv"),
   ("TexColorFragment", "compositor/gles/tex_color.glslf"),
   ("TexShadeVertex", "compositor/gles/tex_shade.glslv"),
   ("TexShadeFragment", "compositor/gles/tex_shade.glslf"),
   ("NoAlphaColorFragment", "compositor/gles/noalpha_color.glslf"),
   ("NoAlphaShadeFragment", "compositor/gles/noalpha_shade.glslf")]

/-- The fixed program table of the source (`programs`). -/
def programsTable : List (String × String × String) :=
  [("TexColorShader", "TexColorVertex", "TexColorFragment"),
   ("TexShadeShader", "TexShadeVertex", "TexShadeFragment"),
   ("NoAlphaColorShader", "TexColorVertex", "NoAlphaColorFragment"),
   ("NoAlphaShadeShader", "TexShadeVertex", "NoAlphaShadeFragment")]

/-- Observable effects of one `main()` run: file reads, output writes, and a
fatal abort (missing file, failed assertion, or dict `KeyError`). -/
inductive Event where
  | read (path : String)
  | fail
  | write (path : String) (content : String)
deriving DecidableEq

/-- The shader-loading loop of `main`: read and parse each configured stage
file in table order, stopping with a `fail` event at the first unreadable
file. -/
def readAll (fs : String → Option String) :
    List (String × String) → List Event × Option (List (String × Shader))
  | [] => ([], some [])
  | (n, p) :: rest =>
    match fs p with
    | none => ([Event.read p, Event.fail], none)
    | some text =>
      let r := readAll fs rest
      (Event.read p :: r.1, r.2.map (fun shs => (n, mkShader n text) :: shs))

/-- The program-construction loop of `main`: for each composition look up
its stages, merge their slots, and render both fragments; `none` models any
fatal error (`KeyError` on a stage name, the merge assertion, or a
`FetchSlots` `KeyError`). -/
def buildPrograms (shs : List (String × Shader)) :
    List (String × String × String) → Option (List (String × String))
  | [] => some []
  | (pn, vn, fn) :: rest =>
    match shs.lookup vn, shs.lookup fn with
    | some v, some f =>
      (match mergeSlots [] (v.slots ++ f.slots) with
       | some m =>
         (match implFragment pn (sourceName v) (sourceName f) m with
          | some impl =>
            (buildPrograms shs rest).map
              (fun ps => (headerFragment pn m, impl) :: ps)
          | none => none)
       | none => none)
    | _, _ => none

/-- The declarations document (`header` template with `$Headers` filled). -/
def headerDoc (ps : List (String × String)) : String :=
  "// Auto generated DO NOT edit.\n\n#ifndef WINDOW_MANAGER_GLES_SHADERS_H_\n#define WINDOW_MANAGER_GLES_SHADERS_H_\n\n#include <GLES2/gl2.h>\n\n#include \"base/basictypes.h\"\n#include \"window_manager/compositor/gles/shader_base.h\"\n\nnamespace window_manager \x7b\n\n"
  ++ joinWith "\n\n" (ps.map Prod.fst) ++
  "\n\n\x7d  // namespace window_manager\n\n#endif  // WINDOW_MANAGER_GLES_SHADERS_H_\n"

/-- The definitions document (`implementation` template with `$Sources` and
`$Implementations` filled). -/
def implDoc (shs : List (String × Shader)) (ps : List (String × String)) :
    String :=
  "// Auto generated DO NOT edit.\n\n#include \"window_manager/compositor/gles/shaders.h\"\n\n#include <GLES2/gl2.h>\n\n#include \"base/logging.h\"\n\n#include \"window_manager/compositor/gles/shader_base.h\"\n\nnamespace window_manager \x7b\n\n"
  ++ joinWith "\n\n" (shs.map (fun q => quotedSource q.2)) ++ "\n\n" ++
  joinWith "\n\n" (ps.map Prod.snd) ++
  "\n\n\x7d  // namespace window_manager\n"

/-- Events following the stage reads: a failed program construction aborts;
otherwise both output documents are written. -/
def tailTrace (shs : List (String × Shader)) :
    Option (List (String × String)) → List Event
  | none => [Event.fail]
  | some ps =>
    [Event.write "compositor/gles/shaders.h" (headerDoc ps),
     Event.write "compositor/gles/shaders.cc" (implDoc shs ps)]

/-- The effect trace of one `main()` run over a file system (a partial map
from path to file text): all stage reads and program constructions happen
first; the two output files are written only after every one of them has
succeeded, mirroring the statement order of `main`. -/
def mainTrace (fs : String → Option String) : List Event :=
  match readAll fs shadersTable with
  | (evs, none) => evs
  | (evs, some shs) => evs ++ tailTrace shs (buildPrograms shs programsTable)

/-! ### Association-list and merge lemmas -/

theorem lookup_eq_none_iff (m : SlotMap) (k : String) :
    m.lookup k = none ↔ k ∉ m.map Prod.fst := by
  induction m with
  | nil => simp
  | cons p ps ih =>
    obtain ⟨a, b⟩ := p
    by_cases h : k = a
    · subst h; simp
    · rw [List.lookup_cons]
      rw [show (k == a) = false from beq_eq_false_iff_ne.mpr h]
      simpa [h] using ih

theorem mem_of_lookup_eq_some {m : SlotMap} {k v : String}
    (h : m.lookup k = some v) : (k, v) ∈ m := by
  induction m with
  | nil => simp at h
  | cons p ps ih =>
    obtain ⟨a, b⟩ := p
    by_cases hk : k = a
    · subst hk
      rw [List.lookup_cons, show (k == k) = true from beq_self_eq_true k] at h
      simp only [Option.some.injEq] at h
      simp [h]
    · rw [List.lookup_cons,
        show (k == a) = false from beq_eq_false_iff_ne.mpr hk] at h
      exact List.mem_cons_of_mem _ (ih h)

theorem lookup_eq_some_of_mem {m : SlotMap} (hd : (m.map Prod.fst).Nodup)
    {k v : String} (h : (k, v) ∈ m) : m.lookup k = some v := by
  induction m with
  | nil => simp at h
  | cons p ps ih =>
    obtain ⟨a, b⟩ := p
    simp only [List.map_cons, List.nodup_cons] at hd
    rcases List.mem_cons.mp h with he | hm
    · obtain ⟨h1, h2⟩ := Prod.mk.injEq .. ▸ he
      subst h1; subst h2
      rw [List.lookup_cons, show (k == k) = true from beq_self_eq_true k]
    · have hk : k ≠ a := by
        intro e; subst e
        exact hd.1 (List.mem_map.mpr ⟨(k, v), hm, rfl⟩)
      rw [List.lookup_cons,
        show (k == a) = false from beq_eq_false_iff_ne.mpr hk]
      exact ih hd.2 hm

theorem mergeSlots_eq {bs : List Binding} :
    ∀ {acc m : SlotMap}, mergeSlots acc bs = some m →
      m = acc ++ bs.map (fun b => (b.name, b.type)) := by
  induction bs with
  | nil =>
    intro acc m h
    simp only [mergeSlots, Option.some.injEq] at h
    simp [h.symm]
  | cons b bs ih =>
    intro acc m h
    rw [mergeSlots] at h
    cases hl : acc.lookup b.name with
    | some v => rw [hl] at h; simp at h
    | none =>
      rw [hl] at h
      simpa [List.append_assoc] using ih h

theorem mergeSlots_isSome_iff (bs : List Binding) :
    ∀ (acc : SlotMap), (acc.map Prod.fst).Nodup →
      ((mergeSlots acc bs).isSome = true ↔
        (acc.map Prod.fst ++ bs.map Binding.name).Nodup) := by
  induction bs with
  | nil => intro acc h; simpa [mergeSlots] using h
  | cons b bs ih =>
    intro acc hnd
    rw [mergeSlots]
    cases hl : acc.lookup b.name with
    | some v =>
      simp only [Option.isSome_none, Bool.false_eq_true, false_iff]
      intro hcontra
      have hmem : b.name ∈ acc.map Prod.fst :=
        List.mem_map.mpr ⟨(b.name, v), mem_of_lookup_eq_some hl, rfl⟩
      exact (List.disjoint_of_nodup_append
        (by simpa using hcontra)) hmem (by simp)
    | none =>
      have hnotin : b.name ∉ acc.map Prod.fst := (lookup_eq_none_iff _ _).mp hl
      have hnd' : ((acc ++ [(b.name, b.type)]).map Prod.fst).Nodup := by
        rw [List.map_append, List.nodup_append]
        refine ⟨hnd, by simp, ?_⟩
        intro x hx hx2
        simp only [List.map_cons, List.map_nil, List.mem_singleton] at hx2
        subst hx2
        exact hnotin hx
      have hlist : (acc ++ [(b.name, b.type)]).map Prod.fst ++
          bs.map Binding.name =
          acc.map Prod.fst ++ (b.name :: bs.map Binding.name) := by
        simp
      rw [ih _ hnd', hlist]
      simp

theorem mergeSlots_keys {bs : List Binding} {m : SlotMap}
    (h : mergeSlots [] bs = some m) :
    m.map Prod.fst = bs.map Binding.name := by
  rw [mergeSlots_eq h]
  simp [Function.comp]

theorem mergeSlots_keys_nodup {bs : List Binding} {m : SlotMap}
    (h : mergeSlots [] bs = some m) : (m.map Prod.fst).Nodup := by
  rw [mergeSlots_keys h]
  have := (mergeSlots_isSome_iff bs [] (by simp)).mp (by rw [h]; rfl)
  simpa using this

/-! ### Sorted-key and rendering lemmas -/

theorem sortedKeys_sorted (m : SlotMap) : List.Sorted strLeP (sortedKeys m) :=
  List.sorted_insertionSort strLeP (m.map Prod.fst)

theorem sortedKeys_perm (m : SlotMap) :
    (sortedKeys m).Perm (m.map Prod.fst) :=
  List.perm_insertionSort strLeP (m.map Prod.fst)

theorem sortedKeys_eq_of_perm {m m' : SlotMap}
    (hp : (m'.map Prod.fst).Perm (m.map Prod.fst)) :
    sortedKeys m' = sortedKeys m :=
  List.eq_of_perm_of_sorted
    ((sortedKeys_perm m').trans (hp.trans (sortedKeys_perm m).symm))
    (sortedKeys_sorted m') (sortedKeys_sorted m)

theorem sortedKeys_nodup {m : SlotMap} (hnd : (m.map Prod.fst).Nodup) :
    (sortedKeys m).Nodup :=
  ((sortedKeys_perm m).nodup_iff).mpr hnd

theorem lookup_eq_of_perm {m m' : SlotMap} (hnd : (m.map Prod.fst).Nodup)
    (hp : m'.Perm m) (k : String) : m'.lookup k = m.lookup k := by
  have hnd' : (m'.map Prod.fst).Nodup := ((hp.map Prod.fst).nodup_iff).mpr hnd
  cases h : m.lookup k with
  | some v =>
    exact lookup_eq_some_of_mem hnd' (hp.mem_iff.mpr (mem_of_lookup_eq_some h))
  | none =>
    rw [lookup_eq_none_iff] at h ⊢
    intro hmem
    exact h ((hp.map Prod.fst).mem_iff.mp hmem)

theorem fetchSlotsList_congr {m m' : SlotMap}
    (h : ∀ k, m'.lookup k = m.lookup k) :
    ∀ ks, fetchSlotsList m' ks = fetchSlotsList m ks := by
  intro ks
  induction ks with
  | nil => rfl
  | cons k ks ih =>
    rw [fetchSlotsList, fetchSlotsList, ih,
      show fetchLinesFor m' k = fetchLinesFor m k by rw [fetchLinesFor, fetchLinesFor, h k]]

theorem attribsLoop_congr {m m' : SlotMap}
    (h : ∀ k, m'.lookup k = m.lookup k) :
    ∀ ks, attribsLoop m' ks = attribsLoop m ks := by
  intro ks
  induction ks with
  | nil => rfl
  | cons k ks ih => rw [attribsLoop, attribsLoop, h k, ih]

theorem attribsLoop_eq_filter (m : SlotMap) :
    ∀ ks, attribsLoop m ks =
      ks.filter (fun k => m.lookup k == some "attribute") := by
  intro ks
  induction ks with
  | nil => rfl
  | cons k ks ih =>
    rw [attribsLoop, List.filter_cons]
    by_cases h : m.lookup k == some "attribute"
    · rw [if_pos h, if_pos h, ih]
    · rw [if_neg h, if_neg h, ih]

theorem fetchSlotsList_isSome {m : SlotMap} :
    ∀ {ks : List String},
      (∀ k ∈ ks, ∃ t, m.lookup k = some t ∧
        (t = "uniform" ∨ t = "attribute")) →
      (fetchSlotsList m ks).isSome = true := by
  intro ks
  induction ks with
  | nil => intro _; rfl
  | cons k ks ih =>
    intro h
    obtain ⟨t, ht, hk⟩ := h k (by simp)
    have ha : ∃ a, kindAccessor t = some a := by
      rcases hk with h1 | h1 <;> subst h1 <;> exact ⟨_, rfl⟩
    obtain ⟨a, hacc⟩ := ha
    have hrest := ih (fun k hk => h k (List.mem_cons_of_mem _ hk))
    rw [fetchSlotsList, fetchLinesFor, ht]
    simp only [hacc, Option.map_some]
    cases hr : fetchSlotsList m ks with
    | none => rw [hr] at hrest; simp at hrest
    | some rest => simp [hr]

/-! ### Extraction lemmas -/

theorem matchSlot_type {l : String} {b : Binding}
    (h : matchSlot l = some b) :
    b.type = "uniform" ∨ b.type = "attribute" := by
  simp only [matchSlot, matchSlotC] at h
  cases h1 : matchKw "uniform".data (l.data.dropWhile pySpace) with
  | some rest =>
    rw [h1] at h
    rcases Option.map_eq_some'.mp h with ⟨n, _, hb⟩
    left; rw [hb.symm]
  | none =>
    rw [h1] at h
    cases h2 : matchKw "attribute".data (l.data.dropWhile pySpace) with
    | some rest =>
      rw [h2] at h
      rcases Option.map_eq_some'.mp h with ⟨n, _, hb⟩
      right; rw [hb.symm]
    | none => rw [h2] at h; simp at h

theorem slotsOfLines_eq_filterMap :
    ∀ ls : List String, slotsOfLines ls = ls.filterMap matchSlot := by
  intro ls
  induction ls with
  | nil => rfl
  | cons l ls ih =>
    rw [slotsOfLines, List.filterMap_cons]
    cases h : matchSlot l with
    | some b => simp [ih]
    | none => simp [ih]

theorem mem_slotsOfLines {ls : List String} {b : Binding}
    (h : b ∈ slotsOfLines ls) : ∃ l ∈ ls, matchSlot l = some b := by
  rw [slotsOfLines_eq_filterMap] at h
  rcases List.mem_filterMap.mp h with ⟨l, hl, hm⟩
  exact ⟨l, hl, hm⟩

theorem slotsOfLines_type {ls : List String} {b : Binding}
    (h : b ∈ slotsOfLines ls) :
    b.type = "uniform" ∨ b.type = "attribute" := by
  obtain ⟨l, _, hm⟩ := mem_slotsOfLines h
  exact matchSlot_type hm

/-! ### Line-scanner round-trip lemmas -/

theorem pyLines_eq_nil_iff (cs : List Char) : pyLines cs = [] ↔ cs = [] := by
  cases cs with
  | nil => simp [pyLines]
  | cons c cs =>
    simp only [pyLines]
    constructor
    · intro h
      by_cases hc : c = '\n'
      · rw [if_pos hc] at h; simp at h
      · rw [if_neg hc] at h
        cases hp : pyLines cs with
        | nil => rw [hp] at h; simp at h
        | cons l ls => rw [hp] at h; simp at h
    · intro h; simp at h

theorem rstripNlC_cons {c : Char} (hc : c ≠ '\n') (l : List Char) :
    rstripNlC (c :: l) = c :: rstripNlC l := by
  rw [rstripNlC, rstripNlC]
  rw [show (c :: l).reverse = l.reverse ++ [c] by simp]
  rw [List.dropWhile_append]
  by_cases he : (l.reverse.dropWhile (fun x => x = '\n')).isEmpty
  · rw [if_pos he]
    rw [List.isEmpty_iff] at he
    rw [he]
    simp [List.dropWhile, hc]
  · rw [if_neg he]
    simp

theorem joinC_cons_head (c : Char) (x : List Char) (xs : List (List Char)) :
    joinC ((c :: x) :: xs) = c :: joinC (x :: xs) := by
  cases xs with
  | nil => rfl
  | cons y ys => rfl

theorem dropLastNlC_cons {c : Char} {cs : List Char} (h : cs ≠ []) :
    dropLastNlC (c :: cs) = c :: dropLastNlC cs := by
  obtain ⟨d, ds, rfl⟩ := List.exists_cons_of_ne_nil h
  rw [dropLastNlC, dropLastNlC]
  rw [List.getLast?_cons_cons]
  by_cases hl : (d :: ds).getLast? = some '\n'
  · rw [if_pos hl, if_pos hl]
    rfl
  · rw [if_neg hl, if_neg hl]

theorem scanner_roundtrip (cs : List Char) :
    joinC ((pyLines cs).map rstripNlC) = dropLastNlC cs := by
  induction cs with
  | nil => rfl
  | cons c cs ih =>
    by_cases hc : c = '\n'
    · subst hc
      rw [show pyLines ('\n' :: cs) = ['\n'] :: pyLines cs by rw [pyLines]; simp]
      cases hcs : cs with
      | nil => rfl
      | cons d ds =>
        subst hcs
        have hne : pyLines (d :: ds) ≠ [] := by
          intro h
          exact absurd ((pyLines_eq_nil_iff _).mp h) (by simp)
        obtain ⟨l, ls, hp⟩ := List.exists_cons_of_ne_nil hne
        rw [hp, List.map_cons, List.map_cons]
        rw [show rstripNlC ['\n'] = [] from rfl]
        rw [show joinC ([] :: rstripNlC l :: List.map rstripNlC ls) =
          '\n' :: joinC (rstripNlC l :: List.map rstripNlC ls) from rfl]
        rw [show rstripNlC l :: List.map rstripNlC ls =
          (pyLines (d :: ds)).map rstripNlC by rw [hp, List.map_cons]]
        rw [ih]
        rw [dropLastNlC_cons (by simp : (d :: ds : List Char) ≠ [])]
    · rw [show pyLines (c :: cs) =
        (match pyLines cs with
         | [] => [[c]]
         | l :: ls => (c :: l) :: ls) by rw [pyLines]; simp [hc]]
      cases hp : pyLines cs with
      | nil =>
        have : cs = [] := (pyLines_eq_nil_iff _).mp hp
        subst this
        simp only [List.map_cons, List.map_nil]
        rw [show joinC [rstripNlC [c]] = rstripNlC [c] from rfl]
        rw [rstripNlC_cons hc]
        rw [show rstripNlC [] = [] from rfl]
        rw [dropLastNlC]
        rw [show ([c] : List Char).getLast? = some c from rfl]
        rw [if_neg (by intro h; exact hc (Option.some.inj h))]
      | cons l ls =>
        have hne : cs ≠ [] := by
          intro h
          rw [h] at hp
          simp [pyLines] at hp
        simp only [List.map_cons]
        rw [rstripNlC_cons hc]
        rw [joinC_cons_head]
        rw [show rstripNlC l :: List.map rstripNlC ls =
          (pyLines cs).map rstripNlC by rw [hp, List.map_cons]]
        rw [ih]
        rw [dropLastNlC_cons hne]

theorem joinLines_map_mk :
    ∀ lls : List (List Char),
      joinLines (lls.map (fun l => (⟨l⟩ : String))) = ⟨joinC lls⟩ := by
  intro lls
  induction lls with
  | nil => rfl
  | cons l ls ih =>
    cases ls with
    | nil => rfl
    | cons l' ls' =>
      have h1 : joinLines ((l :: l' :: ls').map (fun l => (⟨l⟩ : String))) =
          (⟨l⟩ : String) ++ "\n" ++
            joinLines ((l' :: ls').map (fun l => (⟨l⟩ : String))) := rfl
      rw [h1, ih]
      apply String.ext
      rw [String.data_append, String.data_append]
      rw [show joinC (l :: l' :: ls') = l ++ '\n' :: joinC (l' :: ls') from rfl]
      simp

theorem source_roundtrip (name text : String) :
    joinLines ((mkShader name text).source) = stripOneNl text := by
  show joinLines ((fileLines text).map rstripNl) = stripOneNl text
  rw [fileLines, List.map_map]
  rw [show (rstripNl ∘ fun l => (⟨l⟩ : String)) =
    ((fun l => (⟨l⟩ : String)) ∘ rstripNlC) from rfl]
  rw [← List.map_map]
  rw [joinLines_map_mk]
  exact String.ext (scanner_roundtrip text.data)

theorem slotsOfLines_eq_nil {ls : List String}
    (h : ∀ l ∈ ls, matchSlot l = none) : slotsOfLines ls = [] := by
  induction ls with
  | nil => rfl
  | cons l ls ih =>
    rw [slotsOfLines, h l (by simp)]
    exact ih (fun l hl => h l (List.mem_cons_of_mem _ hl))

theorem renders_eq_of_perm {v f v' f' : List Binding} {m m' : SlotMap}
    (hm : mergeSlots [] (v ++ f) = some m)
    (hm' : mergeSlots [] (v' ++ f') = some m')
    (hp : (v' ++ f').Perm (v ++ f)) :
    sortedKeys m' = sortedKeys m ∧ ∀ k, m'.lookup k = m.lookup k := by
  have he : m = (v ++ f).map (fun b => (b.name, b.type)) := by
    simpa using mergeSlots_eq hm
  have he' : m' = (v' ++ f').map (fun b => (b.name, b.type)) := by
    simpa using mergeSlots_eq hm'
  have hpm : m'.Perm m := by
    rw [he, he']
    exact hp.map _
  have hnd : (m.map Prod.fst).Nodup := mergeSlots_keys_nodup hm
  exact ⟨sortedKeys_eq_of_perm (hpm.map Prod.fst), lookup_eq_of_perm hnd hpm⟩

/-! ### Claim theorems -/

/-- Claim C1, counterexample: when both stages declare a binding with the
same name and the same kind (`uniform foo` in each), `Program._MakeSlots`
does not absorb the duplicate — its `assert slot['name'] not in self.slots`
fires, so the merge aborts (`none`) instead of producing a one-entry
mapping. -/
theorem claim_C1_cex :
    mergeSlots [] ([Binding.mk "uniform" "foo"] ++ [Binding.mk "uniform" "foo"]) =
      none := by decide

/-- Claim C1, amended: the merge of the two stages' binding lists succeeds
exactly when all binding names across the concatenated lists are distinct
(any repeated name, same kind or not, trips the assertion), and on success
the merged binding set's size equals the number of distinct names. -/
theorem claim_C1_amended (v f : List Binding) :
    ((mergeSlots [] (v ++ f)).isSome = true ↔
      ((v ++ f).map Binding.name).Nodup) ∧
    (∀ m, mergeSlots [] (v ++ f) = some m →
      m.length = (((v ++ f).map Binding.name).dedup).length) := by
  constructor
  · simpa using mergeSlots_isSome_iff (v ++ f) [] (by simp)
  · intro m hm
    have hkeys := mergeSlots_keys hm
    have hnd : ((v ++ f).map Binding.name).Nodup := by
      rw [← hkeys]; exact mergeSlots_keys_nodup hm
    rw [List.dedup_eq_self.mpr hnd]
    calc m.length = (m.map Prod.fst).length := (List.length_map _ _).symm
      _ = ((v ++ f).map Binding.name).length := by rw [hkeys]

/-- Claim C1 witness: a merge of two distinct-name bindings evaluated at a
concrete input. -/
theorem claim_C1_witness :
    ([("a", "uniform"), ("b", "attribute")] : SlotMap).length =
      ((([Binding.mk "uniform" "a"] ++ [Binding.mk "attribute" "b"]).map
        Binding.name).dedup).length :=
  (claim_C1_amended [Binding.mk "uniform" "a"] [Binding.mk "attribute" "b"]).2
    [("a", "uniform"), ("b", "attribute")] (by decide)

/-- Claim C3: when the two stages declare the same binding name with
different kinds, the merge of `Program._MakeSlots` fails (the assertion on
the repeated name fires) and no merged mapping is produced. -/
theorem claim_C3 (v f : List Binding) (nm k1 k2 : String)
    (h1 : Binding.mk k1 nm ∈ v) (h2 : Binding.mk k2 nm ∈ f)
    (_hk : k1 ≠ k2) :
    mergeSlots [] (v ++ f) = none := by
  have hdup : ¬ ((v ++ f).map Binding.name).Nodup := by
    intro hnd
    rw [List.map_append] at hnd
    exact (List.disjoint_of_nodup_append hnd)
      (List.mem_map.mpr ⟨_, h1, rfl⟩) (List.mem_map.mpr ⟨_, h2, rfl⟩)
  cases hm : mergeSlots [] (v ++ f) with
  | none => rfl
  | some m =>
    exact absurd
      ((mergeSlots_isSome_iff (v ++ f) [] (by simp)).mp (by rw [hm]; rfl))
      (by simpa using hdup)

/-- Claim C3 witness: `uniform foo` in the vertex stage against
`attribute foo` in the fragment stage aborts the merge. -/
theorem claim_C3_witness :
    mergeSlots [] ([Binding.mk "uniform" "foo"] ++
      [Binding.mk "attribute" "foo"]) = none :=
  claim_C3 _ _ "foo" "uniform" "attribute" (by decide) (by decide) (by decide)

/-- Claim C2, counterexample: for the program whose name-sorted bindings are
`aaa` (attribute), `bbb` (uniform), `ccc` (attribute), the emitted
registration call is not the call whose bit indices are the bindings'
positions in the sorted list (bits 0 and 2): the code shifts by the `GLint`
member variables `aaa_` and `ccc_` (runtime locations), not by numeric
storage-slot indices. -/
theorem claim_C2_cex :
    usedVertexAttribs
        [("aaa", "attribute"), ("bbb", "uniform"), ("ccc", "attribute")] ≠
      usedVertexAttribsSpecWords
        [("aaa", "attribute"), ("bbb", "uniform"), ("ccc", "attribute")] := by
  decide

/-- Claim C2, amended: the emitted attribute-bitmask registration call has
one operand `1 << name_` per attribute-kind binding, listed in name-sorted
order (uniform bindings contribute no operand); the bit index is therefore
the runtime-fetched location held in the member variable, not the binding's
storage-slot index. -/
theorem claim_C2_amended (m : SlotMap) :
    (∀ k, k ∈ attribsOf m ↔
      k ∈ sortedKeys m ∧ m.lookup k = some "attribute") ∧
    usedVertexAttribs m =
      uvaHead ++ uvaBody ((sortedKeys m).filter
        (fun k => m.lookup k == some "attribute")) ++ ");" := by
  constructor
  · intro k
    rw [attribsOf, attribsLoop_eq_filter, List.mem_filter]
    simp
  · simp only [usedVertexAttribs, uvaBody, attribsOf, attribsLoop_eq_filter]

/-- Claim C2 witness: the attribute-membership characterization evaluated
at a concrete program. -/
theorem claim_C2_witness :
    "ccc" ∈ attribsOf
        [("aaa", "attribute"), ("bbb", "uniform"), ("ccc", "attribute")] ↔
      "ccc" ∈ sortedKeys
          [("aaa", "attribute"), ("bbb", "uniform"), ("ccc", "attribute")] ∧
        List.lookup "ccc"
          [("aaa", "attribute"), ("bbb", "uniform"), ("ccc", "attribute")] =
          some "attribute" :=
  (claim_C2_amended
    [("aaa", "attribute"), ("bbb", "uniform"), ("ccc", "attribute")]).1 "ccc"

/-- Claim C4: every rendered per-binding sequence (storage slots, public
accessors, constructor fetch lines, and the attribute registration call)
iterates the bindings in strictly lexicographic order of binding name, and
the rendered output is unchanged under any permutation of the declared
bindings whose merge also succeeds. -/
theorem claim_C4 (v f v' f' : List Binding) (m m' : SlotMap)
    (hm : mergeSlots [] (v ++ f) = some m)
    (hm' : mergeSlots [] (v' ++ f') = some m')
    (hp : (v' ++ f').Perm (v ++ f)) :
    List.Pairwise (fun a b => strLeP a b ∧ a ≠ b) (sortedKeys m) ∧
    slotsDecl m' = slotsDecl m ∧ accessors m' = accessors m ∧
    fetchSlots m' = fetchSlots m ∧
    usedVertexAttribs m' = usedVertexAttribs m := by
  obtain ⟨hsk, hlk⟩ := renders_eq_of_perm hm hm' hp
  refine ⟨?_, ?_, ?_, ?_, ?_⟩
  · exact List.Pairwise.and (sortedKeys_sorted m)
      (sortedKeys_nodup (mergeSlots_keys_nodup hm))
  · rw [slotsDecl, slotsDecl, hsk]
  · rw [accessors, accessors, hsk]
  · rw [fetchSlots, fetchSlots, hsk, fetchSlotsList_congr hlk]
  · simp only [usedVertexAttribs, attribsOf]
    rw [hsk, attribsLoop_congr hlk]

/-- Claim C4 witness: two declaration orders of the same three bindings
render identically, and the sorted key sequence is strictly increasing. -/
theorem claim_C4_witness :
    List.Pairwise (fun a b => strLeP a b ∧ a ≠ b)
      (sortedKeys [("mvp", "uniform"), ("position", "attribute"),
        ("color", "uniform")]) ∧
    slotsDecl [("color", "uniform"), ("position", "attribute"),
        ("mvp", "uniform")] =
      slotsDecl [("mvp", "uniform"), ("position", "attribute"),
        ("color", "uniform")] ∧
    accessors [("color", "uniform"), ("position", "attribute"),
        ("mvp", "uniform")] =
      accessors [("mvp", "uniform"), ("position", "attribute"),
        ("color", "uniform")] ∧
    fetchSlots [("color", "uniform"), ("position", "attribute"),
        ("mvp", "uniform")] =
      fetchSlots [("mvp", "uniform"), ("position", "attribute"),
        ("color", "uniform")] ∧
    usedVertexAttribs [("color", "uniform"), ("position", "attribute"),
        ("mvp", "uniform")] =
      usedVertexAttribs [("mvp", "uniform"), ("position", "attribute"),
        ("color", "uniform")] :=
  claim_C4
    [Binding.mk "uniform" "mvp", Binding.mk "attribute" "position"]
    [Binding.mk "uniform" "color"]
    [Binding.mk "uniform" "color", Binding.mk "attribute" "position"]
    [Binding.mk "uniform" "mvp"]
    _ _ (by decide) (by decide) (by decide)

theorem length_filterMap_matchSlot :
    ∀ ls : List String,
      (ls.filterMap matchSlot).length =
        (ls.filter (fun l => (matchSlot l).isSome)).length := by
  intro ls
  induction ls with
  | nil => rfl
  | cons l ls ih =>
    rw [List.filterMap_cons, List.filter_cons]
    cases h : matchSlot l with
    | some b => simp [h, ih]
    | none => simp [h, ih]

/-- Claim C5: the slot extractor yields exactly the bindings of the
declaration-matching lines, in file order (one binding per matching line,
none for the others), so their number equals the number of matching
lines. -/
theorem claim_C5 (name text : String) :
    (mkShader name text).slots =
      ((mkShader name text).source).filterMap matchSlot ∧
    ((mkShader name text).slots).length =
      (((mkShader name text).source).filter
        (fun l => (matchSlot l).isSome)).length := by
  constructor
  · exact slotsOfLines_eq_filterMap _
  · show (slotsOfLines ((fileLines text).map rstripNl)).length = _
    rw [slotsOfLines_eq_filterMap]
    exact length_filterMap_matchSlot _

/-- Claim C6, counterexample: for the one-line text `"a\n"`, the scanner's
stored lines are `["a"]` (`rstrip('\n')` removed the terminator), so
re-concatenating with newline separators yields `"a"`, not the original
text. -/
theorem claim_C6_cex :
    joinLines ((mkShader "S" "a\n").source) ≠ "a\n" := by decide

/-- Claim C6, amended: the extractor preserves the line decomposition (one
stored line per input line), and re-concatenating the stored lines with
newline separators reproduces the original text with a single trailing
newline (when present) removed; the round trip is exact only for texts not
ending in a newline. -/
theorem claim_C6_amended (name text : String) :
    joinLines ((mkShader name text).source) = stripOneNl text ∧
    ((mkShader name text).source).length = (fileLines text).length := by
  refine ⟨source_roundtrip name text, ?_⟩
  show (((fileLines text).map rstripNl)).length = _
  exact List.length_map _ _

/-- Claim C7, counterexample: two declaration-free stages merge to the
empty binding mapping, but the emitted registration call is
`SetUsedVertexAttribs();` — an empty operand list, not a literal zero
mask. -/
theorem claim_C7_cex :
    mergeSlots [] ((mkShader "V" "void main() \x7b\x7d\n").slots ++
      (mkShader "F" "void f() \x7b\x7d\n").slots) = some [] ∧
    usedVertexAttribs ([] : SlotMap) = "  SetUsedVertexAttribs();" ∧
    usedVertexAttribs ([] : SlotMap) ≠ "  SetUsedVertexAttribs(0);" := by
  decide

/-- Claim C7, amended: a stage file with zero declaration lines yields a
stage model with no bindings whose stored lines reproduce the original text
(up to the single trailing newline, as in C6); a program built from two
such stages merges to the empty mapping and renders a class with no
accessors and a `SetUsedVertexAttribs();` registration call with an empty
operand list (not a literal zero mask). -/
theorem claim_C7_amended (n1 t1 n2 t2 : String)
    (h1 : ∀ l ∈ (mkShader n1 t1).source, matchSlot l = none)
    (h2 : ∀ l ∈ (mkShader n2 t2).source, matchSlot l = none) :
    (mkShader n1 t1).slots = [] ∧
    joinLines ((mkShader n1 t1).source) = stripOneNl t1 ∧
    mergeSlots [] ((mkShader n1 t1).slots ++ (mkShader n2 t2).slots) =
      some [] ∧
    accessors ([] : SlotMap) = "" ∧
    usedVertexAttribs ([] : SlotMap) = "  SetUsedVertexAttribs();" := by
  have hs1 : (mkShader n1 t1).slots = [] := slotsOfLines_eq_nil h1
  have hs2 : (mkShader n2 t2).slots = [] := slotsOfLines_eq_nil h2
  refine ⟨hs1, source_roundtrip n1 t1, ?_, rfl, rfl⟩
  rw [hs1, hs2]
  rfl

/-- Claim C7 witness: the amended statement evaluated on two concrete
declaration-free stage texts. -/
theorem claim_C7_witness :
    (mkShader "V" "varying vec2 uv;\nvoid main() \x7b\x7d\n").slots = [] ∧
    joinLines ((mkShader "V" "varying vec2 uv;\nvoid main() \x7b\x7d\n").source) =
      stripOneNl "varying vec2 uv;\nvoid main() \x7b\x7d\n" ∧
    mergeSlots []
      ((mkShader "V" "varying vec2 uv;\nvoid main() \x7b\x7d\n").slots ++
        (mkShader "F" "void f() \x7b\x7d").slots) = some [] ∧
    accessors ([] : SlotMap) = "" ∧
    usedVertexAttribs ([] : SlotMap) = "  SetUsedVertexAttribs();" :=
  claim_C7_amended "V" "varying vec2 uv;\nvoid main() \x7b\x7d\n"
    "F" "void f() \x7b\x7d" (by decide) (by decide)

theorem splitUS_ne_nil : ∀ cs : List Char, splitUS cs ≠ [] := by
  intro cs
  cases cs with
  | nil => simp [splitUS]
  | cons c cs =>
    rw [splitUS]
    by_cases hc : c = '_'
    · rw [if_pos hc]; simp
    · rw [if_neg hc]
      cases h : splitUS cs with
      | nil => simp
      | cons l ls => simp

theorem splitUS_append :
    ∀ xs ys : List Char, splitUS (xs ++ '_' :: ys) = splitUS xs ++ splitUS ys := by
  intro xs ys
  induction xs with
  | nil => rfl
  | cons c cs ih =>
    rw [List.cons_append, splitUS]
    by_cases hc : c = '_'
    · rw [if_pos hc, ih]
      rw [show splitUS (c :: cs) = [] :: splitUS cs by rw [splitUS, if_pos hc]]
      rfl
    · rw [if_neg hc, ih]
      obtain ⟨l, ls, hl⟩ := List.exists_cons_of_ne_nil (splitUS_ne_nil cs)
      rw [hl]
      rw [show splitUS (c :: cs) = (c :: l) :: ls by
        rw [splitUS, if_neg hc, hl]]
      rfl

/-- Claim C8, counterexample: camel-casing in the code is Python
`str.title()` per underscore segment, which also uppercases a letter that
follows a digit; for the binding `a2b` the generated accessor is
`A2BLocation`, not the `A2bLocation` that splitting on underscores and
capitalizing each segment would give. -/
theorem claim_C8_cex :
    accessors [("a2b", "uniform")] ≠
      "  GLint " ++ camelCaseSpecWords "a2b" ++
        "Location() const \x7b return a2b_; \x7d" ∧
    accessors [("a2b", "uniform")] =
      "  GLint A2BLocation() const \x7b return a2b_; \x7d" := by
  decide

/-- Claim C8, amended: the declaration fragment holds exactly one public
accessor per binding, named by `title()`-casing each underscore-separated
segment of the identifier (a letter after any non-letter is uppercased,
other letters are lowercased) and appending `Location`, returning the
stored handle; the transform is a homomorphism over underscores, and the
spec's example program renders the three accessors `ColorLocation`,
`MvpLocation`, `PositionLocation` in alphabetical order. -/
theorem claim_C8_amended (m : SlotMap) (s t : String) :
    accessors m = joinLines ((sortedKeys m).map (fun k =>
      "  GLint " ++ camelCase k ++ "Location() const \x7b return " ++ k ++
        "_; \x7d")) ∧
    camelCase (s ++ "_" ++ t) = camelCase s ++ camelCase t ∧
    accessors [("mvp", "uniform"), ("position", "attribute"),
        ("color", "uniform")] =
      "  GLint ColorLocation() const \x7b return color_; \x7d\n" ++
      "  GLint MvpLocation() const \x7b return mvp_; \x7d\n" ++
      "  GLint PositionLocation() const \x7b return position_; \x7d" := by
  refine ⟨rfl, ?_, by decide⟩
  have hd : (s ++ "_" ++ t).data = s.data ++ '_' :: t.data := by
    rw [String.data_append, String.data_append]
    simp
  apply String.ext
  rw [String.data_append]
  show ((splitUS (s ++ "_" ++ t).data).map (pyTitleAux false)).flatten = _
  rw [hd, splitUS_append, List.map_append, List.flatten_append]
  rfl

theorem readAll_fst_no_write (fs : String → Option String) :
    ∀ (tbl : List (String × String)) (p c : String),
      Event.write p c ∉ (readAll fs tbl).1 := by
  intro tbl
  induction tbl with
  | nil => intro p c; simp [readAll]
  | cons e rest ih =>
    obtain ⟨n, p0⟩ := e
    intro p c
    rw [readAll]
    cases hf : fs p0 with
    | none => simp
    | some text =>
      simp only [List.mem_cons, not_or]
      exact ⟨by simp, ih p c⟩

theorem readAll_ok_no_fail (fs : String → Option String) :
    ∀ (tbl : List (String × String)) (shs : List (String × Shader)),
      (readAll fs tbl).2 = some shs → Event.fail ∉ (readAll fs tbl).1 := by
  intro tbl
  induction tbl with
  | nil => intro shs _; simp [readAll]
  | cons e rest ih =>
    obtain ⟨n, p0⟩ := e
    intro shs h
    rw [readAll] at h ⊢
    cases hf : fs p0 with
    | none => rw [hf] at h; simp at h
    | some text =>
      rw [hf] at h
      replace h : Option.map (fun shs => (n, mkShader n text) :: shs)
          (readAll fs rest).2 = some shs := h
      show Event.fail ∉ Event.read p0 :: (readAll fs rest).1
      simp only [List.mem_cons, not_or]
      refine ⟨by simp, ?_⟩
      cases hr : (readAll fs rest).2 with
      | none => rw [hr] at h; simp at h
      | some shs' => exact ih shs' hr

/-- Claim C9: a run that fails during stage extraction or program binding
writes nothing — in the effect trace of `main`, a `fail` event excludes
every `write` event, because both output files are written only after all
reads and all program constructions have succeeded. -/
theorem claim_C9 (fs : String → Option String)
    (h : Event.fail ∈ mainTrace fs) :
    ∀ p c, Event.write p c ∉ mainTrace fs := by
  intro p c
  rw [mainTrace] at h ⊢
  cases hr : readAll fs shadersTable with
  | mk evs ro =>
    cases ro with
    | none =>
      show Event.write p c ∉ evs
      have hw := readAll_fst_no_write fs shadersTable p c
      rw [hr] at hw
      exact hw
    | some shs =>
      rw [hr] at h
      replace h : Event.fail ∈
        evs ++ tailTrace shs (buildPrograms shs programsTable) := h
      show Event.write p c ∉
        evs ++ tailTrace shs (buildPrograms shs programsTable)
      have hw := readAll_fst_no_write fs shadersTable p c
      rw [hr] at hw
      cases hb : buildPrograms shs programsTable with
      | none =>
        rw [tailTrace]
        simp only [List.mem_append, not_or]
        exact ⟨hw, by simp⟩
      | some ps =>
        rw [hb, tailTrace] at h
        have hfail : Event.fail ∈ evs := by
          rcases List.mem_append.mp h with h1 | h1
          · exact h1
          · simp at h1
        have hnf := readAll_ok_no_fail fs shadersTable shs (by rw [hr])
        rw [hr] at hnf
        exact absurd hfail hnf

/-- Claim C9 witness: with every stage file missing, the trace holds a
`fail` and no write event occurs. -/
theorem claim_C9_witness :
    Event.write "compositor/gles/shaders.h" "x" ∉ mainTrace (fun _ => none) :=
  claim_C9 (fun _ => none) (by decide) "compositor/gles/shaders.h" "x"

/-- Claim C10: for a program built from extractor-produced stages, every
merged binding's kind is `uniform` or `attribute` (the only keywords the
pattern captures), so the kind-to-lookup-call table access of `FetchSlots`
is total — the missing-key branch is unreachable and rendering the
constructor's fetch lines always succeeds. -/
theorem claim_C10 (n1 t1 n2 t2 : String) (m : SlotMap)
    (h : mergeSlots [] ((mkShader n1 t1).slots ++ (mkShader n2 t2).slots) =
      some m) :
    (∀ p ∈ m, p.2 = "uniform" ∨ p.2 = "attribute") ∧
    (fetchSlots m).isSome = true := by
  have hmem : ∀ p ∈ m, p.2 = "uniform" ∨ p.2 = "attribute" := by
    intro p hp
    have he := mergeSlots_eq h
    rw [he] at hp
    simp only [List.nil_append] at hp
    rcases List.mem_map.mp hp with ⟨b, hb, hbp⟩
    have hbt : b.type = "uniform" ∨ b.type = "attribute" := by
      rcases List.mem_append.mp hb with h1 | h1
      · exact slotsOfLines_type h1
      · exact slotsOfLines_type h1
    rw [← hbp]
    exact hbt
  refine ⟨hmem, ?_⟩
  have hside : ∀ k ∈ sortedKeys m, ∃ t, m.lookup k = some t ∧
      (t = "uniform" ∨ t = "attribute") := by
    intro k hk
    cases hl : m.lookup k with
    | none =>
      exact absurd ((sortedKeys_perm m).mem_iff.mp hk)
        ((lookup_eq_none_iff m k).mp hl)
    | some t =>
      have ht := hmem (k, t) (mem_of_lookup_eq_some hl)
      exact ⟨t, rfl, by simpa using ht⟩
  have hsome := fetchSlotsList_isSome hside
  rw [fetchSlots]
  cases hfl : fetchSlotsList m (sortedKeys m) with
  | none => rw [hfl] at hsome; simp at hsome
  | some ls => rfl

/-- Claim C10 witness: the spec's example program evaluated concretely. -/
theorem claim_C10_witness :
    (∀ p ∈ ([("mvp", "uniform"), ("position", "attribute"),
        ("color", "uniform")] : SlotMap),
      p.2 = "uniform" ∨ p.2 = "attribute") ∧
    (fetchSlots [("mvp", "uniform"), ("position", "attribute"),
      ("color", "uniform")]).isSome = true :=
  claim_C10 "V" "uniform mat4 mvp;\nattribute vec4 position;\n"
    "F" "uniform vec4 color;\n" _ (by decide)

end MakeShaders
